import Mathlib

/-!
The lock-based queue and the Event value type of cpp-embedded-assessment.

A shallow embedding of `src/queue/lockbased_queue.h` and of
`include/assessment/event/event.h`, with the memory pool that
`include/assessment/memory/memory_pool.h` declares.

The queue object is the pair of data members guarded by `m_mutex`
(`m_queue`, `m_shutdown`).  Every member function body runs with the mutex held,
so each one is a function on that pair.  The two waits on `m_condition` release
the mutex while the caller sleeps; what other threads did to the queue in the
meantime is an explicit argument (the list of states found at each wakeup).
An empty list is the otherwise-idle queue: nobody else touches it.
-/

namespace assessment
namespace queue

/-- The data members of `LockBasedQueue<T>` guarded by `m_mutex`.
`m_queue` is the `std::queue<T>`, front element first. -/
structure LockBasedQueue (T : Type) where
  m_queue : List T
  m_shutdown : Bool
  deriving DecidableEq, Repr

namespace LockBasedQueue

variable {T : Type}

/-- The constructor `LockBasedQueue() : m_shutdown(false) {}`. -/
def new : LockBasedQueue T :=
  { m_queue := [], m_shutdown := false }

/-- The copy overload `enqueue(const T& item)`: returns early when shut down, else
`m_queue.push(item)`. -/
def enqueue (item : T) (q : LockBasedQueue T) : LockBasedQueue T :=
  if q.m_shutdown then q
  else { q with m_queue := q.m_queue ++ [item] }

/-- The move overload `enqueue(T&& item)`: returns early when shut down, else
`m_queue.push(std::move(item))`. -/
def enqueueMove (item : T) (q : LockBasedQueue T) : LockBasedQueue T :=
  if q.m_shutdown then q
  else { q with m_queue := q.m_queue ++ [item] }

/-- The predicate handed to both waits: `[this] { return m_shutdown || !m_queue.empty(); }`. -/
def waitPred (q : LockBasedQueue T) : Bool :=
  q.m_shutdown || !q.m_queue.isEmpty

/-- The call `m_condition.wait(lock, pred)`, that is `while (!pred()) wait(lock);`.
Each element of `env` is the state found when one inner wait returns and the mutex is
held again.  The result is the state in which the predicate was found true, or `none`
when the caller is still blocked after the last wakeup. -/
def wait : List (LockBasedQueue T) → LockBasedQueue T → Option (LockBasedQueue T)
  | [], q => if waitPred q then some q else none
  | q1 :: env, q => if waitPred q then some q else wait env q1

/-- The call `m_condition.wait_for(lock, timeout, pred)`, that is
`while (!pred()) { if (wait_until(lock, deadline) == cv_status::timeout) return pred(); } return true;`.
Each element of `env` is one return of the inner wait: the milliseconds elapsed since the
call and the state found with the mutex held again; the inner wait reports a timeout when
the elapsed time has reached `timeout`.  After the last wakeup caused by other threads the
timer expires with the state as it is.  The deadline `now() + timeout` is taken as an exact
sum.  The result is the returned boolean together with the state at the end of the wait. -/
def wait_for (timeout : Int) :
    List (Nat × LockBasedQueue T) → LockBasedQueue T → Bool × LockBasedQueue T
  | [], q => (waitPred q, q)
  | (elapsed, q1) :: env, q =>
    if waitPred q then (true, q)
    else if timeout ≤ (elapsed : Int) then (waitPred q1, q1)
    else wait_for timeout env q1

/-- The member `dequeue()`: wait for `m_shutdown || !m_queue.empty()`, then return `nullopt`
when the queue is empty and otherwise move out the front and pop it.
`none` means the call has not returned (it is blocked in the wait). -/
def dequeue (env : List (LockBasedQueue T)) (q : LockBasedQueue T) :
    Option (Option T × LockBasedQueue T) :=
  match wait env q with
  | none => none
  | some q1 =>
    match q1.m_queue with
    | [] => some (none, q1)
    | item :: rest => some (some item, { q1 with m_queue := rest })

/-- The member `tryDequeue(T& item)`: `false` with `item` untouched when the queue is empty,
otherwise the front is moved into `item` and popped.  The result is the returned boolean,
the value of the out-parameter after the call, and the queue after the call. -/
def tryDequeue (item : T) (q : LockBasedQueue T) : Bool × T × LockBasedQueue T :=
  match q.m_queue with
  | [] => (false, item, q)
  | front :: rest => (true, front, { q with m_queue := rest })

/-- The member `waitDequeue(timeout)`: `nullopt` when `wait_for` reports `false` (timeout),
`nullopt` when the queue is empty after the wait (shutdown), else the front, popped. -/
def waitDequeue (timeout : Int) (env : List (Nat × LockBasedQueue T)) (q : LockBasedQueue T) :
    Option T × LockBasedQueue T :=
  match wait_for timeout env q with
  | (false, q1) => (none, q1)
  | (true, q1) =>
    match q1.m_queue with
    | [] => (none, q1)
    | item :: rest => (some item, { q1 with m_queue := rest })

/-- The member `empty()`: `m_queue.empty()`. -/
def empty (q : LockBasedQueue T) : Bool :=
  q.m_queue.isEmpty

/-- The member `size()`: `m_queue.size()`. -/
def size (q : LockBasedQueue T) : Nat :=
  q.m_queue.length

/-- The member `clear()`: swaps `m_queue` with a fresh empty `std::queue`. -/
def clear (q : LockBasedQueue T) : LockBasedQueue T :=
  { q with m_queue := [] }

/-- The member `shutdown()`: `m_shutdown = true`. -/
def shutdown (q : LockBasedQueue T) : LockBasedQueue T :=
  { q with m_shutdown := true }

/-- The member `isShutDown()`: returns `m_shutdown`. -/
def isShutDown (q : LockBasedQueue T) : Bool :=
  q.m_shutdown

end LockBasedQueue

/-- One call of a public member function of the queue, with its arguments. -/
inductive Call (T : Type) where
  | enqueue (item : T)
  | enqueueMove (item : T)
  | dequeue
  | tryDequeue (item : T)
  | waitDequeue (timeout : Int)
  | empty
  | size
  | clear
  | shutdown
  | isShutDown
  deriving DecidableEq, Repr

/-- What a call hands back to its caller. -/
inductive Outcome (T : Type) where
  | done
  | optional (r : Option T)
  | tried (ok : Bool) (item : T)
  | flag (b : Bool)
  | count (n : Nat)
  deriving DecidableEq, Repr

/-- The item a call took out of the queue, if it took one. -/
def Outcome.taken {T : Type} : Outcome T → List T
  | .optional (some x) => [x]
  | .tried true x => [x]
  | _ => []

/-- The items taken out of the queue by a sequence of calls, in call order. -/
def takenItems {T : Type} (os : List (Outcome T)) : List T :=
  os.flatMap Outcome.taken

/-- One call on an otherwise-idle queue (no other thread changes the state while the
caller waits).  `none`: the call does not return. -/
def step {T : Type} : Call T → LockBasedQueue T → Option (Outcome T × LockBasedQueue T)
  | .enqueue x, q => some (.done, q.enqueue x)
  | .enqueueMove x, q => some (.done, q.enqueueMove x)
  | .dequeue, q =>
    match q.dequeue [] with
    | none => none
    | some (r, q1) => some (.optional r, q1)
  | .tryDequeue x, q =>
    match q.tryDequeue x with
    | (ok, out, q1) => some (.tried ok out, q1)
  | .waitDequeue t, q =>
    match q.waitDequeue t [] with
    | (r, q1) => some (.optional r, q1)
  | .empty, q => some (.flag q.empty, q)
  | .size, q => some (.count q.size, q)
  | .clear, q => some (.done, q.clear)
  | .shutdown, q => some (.done, q.shutdown)
  | .isShutDown, q => some (.flag q.isShutDown, q)

/-- A sequence of calls made one after the other on an otherwise-idle queue. -/
def run {T : Type} : List (Call T) → LockBasedQueue T →
    Option (List (Outcome T) × LockBasedQueue T)
  | [], q => some ([], q)
  | c :: cs, q =>
    match step c q with
    | none => none
    | some (o, q1) =>
      match run cs q1 with
      | none => none
      | some (os, q2) => some (o :: os, q2)

/-- An enqueue call through one of the two overloads. -/
def enqueueCall {T : Type} (byMove : Bool) (item : T) : Call T :=
  if byMove then Call.enqueueMove item else Call.enqueue item

end queue
end assessment

namespace assessment
namespace event

/-- The enumeration `Priority`, in declaration order. -/
inductive Priority where
  | LOW
  | MEDIUM
  | HIGH
  | CRITICAL
  deriving DecidableEq, Repr

/-- The enumeration `EventType`, in declaration order. -/
inductive EventType where
  | HARDWARE_INTERRUPT
  | TIMER
  | USER_INPUT
  | SYSTEM
  deriving DecidableEq, Repr

/-- The value `std::chrono::steady_clock::time_point::max()`.  A time point is held as its
tick count; the clock counts in a signed 64-bit integer, whose largest value this is. -/
def time_point_max : Int := 9223372036854775807

/-- The data members of `Event`.  Time points are tick counts of the steady clock. -/
structure Event where
  id_ : Nat
  type_ : EventType
  priority_ : Priority
  payload_ : String
  timestamp_ : Int
  deadline_ : Int
  deriving DecidableEq, Repr

namespace Event

/-- The accessor `getId()`. -/
def getId (e : Event) : Nat := e.id_

/-- The accessor `getType()`. -/
def getType (e : Event) : EventType := e.type_

/-- The accessor `getPriority()`. -/
def getPriority (e : Event) : Priority := e.priority_

/-- The accessor `getPayload()`. -/
def getPayload (e : Event) : String := e.payload_

/-- The accessor `getTimestamp()`. -/
def getTimestamp (e : Event) : Int := e.timestamp_

/-- The accessor `getDeadline()`. -/
def getDeadline (e : Event) : Int := e.deadline_

/-- The member `setDeadline(deadline)`: `deadline_ = deadline;`. -/
def setDeadline (deadline : Int) (e : Event) : Event :=
  { e with deadline_ := deadline }

/-- The member `isPastDeadline()`, with the reading of `steady_clock::now()` as the
argument `now`: `deadline_ != time_point::max() && now > deadline_`. -/
def isPastDeadline (now : Int) (e : Event) : Bool :=
  e.deadline_ != time_point_max && decide (now > e.deadline_)

end Event

/-- One call of a public member function of an existing `Event`; `isPastDeadline` carries
the clock reading it makes. -/
inductive EventCall where
  | getId
  | getType
  | getPriority
  | getPayload
  | getTimestamp
  | getDeadline
  | setDeadline (deadline : Int)
  | isPastDeadline (now : Int)
  deriving DecidableEq, Repr

/-- The object after a member call.  The accessors and `isPastDeadline` are `const`
members (no data member is `mutable`), so they leave the object as it is; `setDeadline`
runs its assignment. -/
def EventCall.after : EventCall → Event → Event
  | .setDeadline d, e => e.setDeadline d
  | _, e => e

end event
end assessment

namespace assessment
namespace queue

/-- The items accepted by the enqueue calls of a sequence, in call order: the items of the
`enqueue` calls (either overload) that were made while the queue was not shut down, that
is, before the first `shutdown` call.  `shut` says whether the queue is already shut down
when the sequence starts. -/
def accepted {T : Type} : Bool → List (Call T) → List T
  | _, [] => []
  | shut, Call.enqueue x :: cs => if shut then accepted shut cs else x :: accepted shut cs
  | shut, Call.enqueueMove x :: cs => if shut then accepted shut cs else x :: accepted shut cs
  | _, Call.shutdown :: cs => accepted true cs
  | shut, _ :: cs => accepted shut cs

/-- Whether a call is one of the three dequeue operations. -/
def Call.isTake {T : Type} : Call T → Bool
  | .dequeue => true
  | .tryDequeue _ => true
  | .waitDequeue _ => true
  | _ => false

/-- What a dequeue operation hands back when it delivers the item `e`: the optional
holding `e`, or `true` with `e` in the out-parameter. -/
def itemOutcome {T : Type} : Call T → T → Outcome T
  | .tryDequeue _, e => Outcome.tried true e
  | _, e => Outcome.optional (some e)

/-- What a dequeue operation hands back when it reports no item: `nullopt`, or `false`
with the out-parameter as the caller passed it. -/
def noItemOutcome {T : Type} : Call T → Outcome T
  | .tryDequeue x => Outcome.tried false x
  | _ => Outcome.optional none

end queue

namespace event

/-- The underlying value of a `Priority` enumerator: its position in the declaration. -/
def Priority.rank : Priority → Nat
  | .LOW => 0
  | .MEDIUM => 1
  | .HIGH => 2
  | .CRITICAL => 3

/-- Modelled from the spec: the body of `operator<(const Event&, const Event&)`, which
event.h declares ("comparison operators for sorting events by priority") and no source
file defines.  The ordering is "defined solely by priority"; between events of equal
priority the implementation picks a deterministic tie-break, here the argument `tie`. -/
def operator_lt (tie : Event → Event → Bool) (lhs rhs : Event) : Bool :=
  if lhs.priority_ = rhs.priority_ then tie lhs rhs
  else decide (lhs.priority_.rank < rhs.priority_.rank)

/-- Modelled from the spec: the body of `operator>(const Event&, const Event&)`, which
event.h declares and no source file defines: the ordering by priority read the other way,
with the same tie-break between events of equal priority. -/
def operator_gt (tie : Event → Event → Bool) (lhs rhs : Event) : Bool :=
  if lhs.priority_ = rhs.priority_ then tie rhs lhs
  else decide (lhs.priority_.rank > rhs.priority_.rank)

end event
end assessment

namespace assessment
namespace memory

/-- The two failures of the pool that the spec names. -/
inductive PoolError where
  | InvalidArgument
  | OutOfMemory
  deriving DecidableEq, Repr

/-- Modelled from the spec: the state of `MemoryPool`.  memory_pool.h declares the public
member functions only; the data members and every function body are missing.  The spec
gives the attributes: `totalSize`, `blockSize`, the free-block bookkeeping over
`totalSize / blockSize` fixed-size blocks, and the counters (allocation count, deallocation
count, bytes in use).  The bookkeeping is one entry per block: `none` for a free block,
`some b` for a block in use by the allocation whose first block is `b`. -/
structure MemoryPool where
  totalSize : Nat
  blockSize : Nat
  blocks : List (Option Nat)
  usedSize : Nat
  allocationCount : Nat
  deallocationCount : Nat
  deriving DecidableEq, Repr

/-- Modelled from the spec: the number of blocks a request takes, the missing rounding
"up to the nearest multiple of blockSize". -/
def blocksFor (blockSize size : Nat) : Nat :=
  (size + blockSize - 1) / blockSize

/-- Modelled from the spec: whether the first `n` blocks of the map exist and are free (part
of the missing first-fit search). -/
def freeRun (n : Nat) (bs : List (Option Nat)) : Bool :=
  decide (n ≤ bs.length) && (bs.take n).all Option.isNone

/-- Modelled from the spec: the missing first-fit search, "the first contiguous run of free
blocks large enough": the index of the first block at which `n` free blocks start. -/
def firstFit (n : Nat) : List (Option Nat) → Option Nat
  | [] => if freeRun n [] then some 0 else none
  | b :: bs =>
    if freeRun n (b :: bs) then some 0
    else
      match firstFit n bs with
      | none => none
      | some i => some (i + 1)

/-- Modelled from the spec: marking the `n` blocks from block `start` on as in use by the
allocation `owner` (part of the missing `allocate`). -/
def markRun (n owner : Nat) : Nat → List (Option Nat) → List (Option Nat)
  | 0, bs => List.replicate n (some owner) ++ bs.drop n
  | _ + 1, [] => []
  | start + 1, b :: bs => b :: markRun n owner start bs

/-- Modelled from the spec: the number of blocks in use according to the bookkeeping. -/
def usedBlocks (bs : List (Option Nat)) : Nat :=
  bs.countP Option.isSome

namespace MemoryPool

/-- Modelled from the spec: the missing constructor `MemoryPool(totalSize, blockSize)`,
which fails with `InvalidArgument` when either size is 0 and otherwise reserves the arena
with every block free and every counter 0. -/
def create (totalSize blockSize : Nat) : Except PoolError MemoryPool :=
  if totalSize = 0 ∨ blockSize = 0 then Except.error PoolError.InvalidArgument
  else Except.ok
    { totalSize := totalSize, blockSize := blockSize,
      blocks := List.replicate (totalSize / blockSize) none,
      usedSize := 0, allocationCount := 0, deallocationCount := 0 }

/-- Modelled from the spec: the missing `allocate(size)`.  `InvalidArgument` when `size` is
0; the request is rounded up to whole blocks and served first-fit; `OutOfMemory` when no
contiguous run of free blocks covers it.  The result is the handle (the byte offset of the
first block in the arena) and the pool after the call. -/
def allocate (size : Nat) (p : MemoryPool) : Except PoolError (Nat × MemoryPool) :=
  if size = 0 then Except.error PoolError.InvalidArgument
  else
    match firstFit (blocksFor p.blockSize size) p.blocks with
    | none => Except.error PoolError.OutOfMemory
    | some start =>
      Except.ok (start * p.blockSize,
        { p with
          blocks := markRun (blocksFor p.blockSize size) start start p.blocks,
          usedSize := p.usedSize + blocksFor p.blockSize size * p.blockSize,
          allocationCount := p.allocationCount + 1 })

/-- Modelled from the spec: the missing `deallocate(handle, size)`.  `InvalidArgument` when
the handle is null (`none`), is not the start of an outstanding allocation of this pool, or
`size` does not round to the block count of that allocation; otherwise the blocks of the
allocation return to the free set. -/
def deallocate (ptr : Option Nat) (size : Nat) (p : MemoryPool) :
    Except PoolError MemoryPool :=
  match ptr with
  | none => Except.error PoolError.InvalidArgument
  | some off =>
    if off % p.blockSize ≠ 0 then Except.error PoolError.InvalidArgument
    else if p.blocks.count (some (off / p.blockSize)) = 0 then
      Except.error PoolError.InvalidArgument
    else if blocksFor p.blockSize size ≠ p.blocks.count (some (off / p.blockSize)) then
      Except.error PoolError.InvalidArgument
    else
      Except.ok
        { p with
          blocks := p.blocks.map
            (fun b => if b = some (off / p.blockSize) then none else b),
          usedSize := p.usedSize - p.blocks.count (some (off / p.blockSize)) * p.blockSize,
          deallocationCount := p.deallocationCount + 1 }

/-- Modelled from the spec: the missing body of `getTotalSize()`. -/
def getTotalSize (p : MemoryPool) : Nat := p.totalSize

/-- Modelled from the spec: the missing body of `getUsedSize()`, the bytes-in-use counter. -/
def getUsedSize (p : MemoryPool) : Nat := p.usedSize

/-- Modelled from the spec: the missing body of `getAvailableSize()`, computed from the live
counters: the bytes of the arena that are not in use. -/
def getAvailableSize (p : MemoryPool) : Nat := p.totalSize - p.usedSize

end MemoryPool

/-- One `allocate` or `deallocate` call on the pool, with its arguments. -/
inductive PoolCall where
  | allocate (size : Nat)
  | deallocate (ptr : Option Nat) (size : Nat)
  deriving DecidableEq, Repr

/-- The pool after a call: a call that fails leaves the pool as it was. -/
def PoolCall.after : PoolCall → MemoryPool → MemoryPool
  | .allocate size, p =>
    match p.allocate size with
    | Except.ok (_, p1) => p1
    | Except.error _ => p
  | .deallocate ptr size, p =>
    match p.deallocate ptr size with
    | Except.ok p1 => p1
    | Except.error _ => p

/-- The pool after a sequence of calls made one after the other. -/
def runPool (cs : List PoolCall) (p : MemoryPool) : MemoryPool :=
  cs.foldl (fun p1 c => c.after p1) p

end memory
end assessment

/-! ## The queue on its own: helper lemmas -/

namespace assessment
namespace queue

variable {T : Type}

theorem run_cons (c : Call T) (cs : List (Call T)) (q : LockBasedQueue T) :
    run (c :: cs) q =
      match step c q with
      | none => none
      | some (o, q1) =>
        match run cs q1 with
        | none => none
        | some (os, q2) => some (o :: os, q2) := rfl

theorem run_append (a b : List (Call T)) (q : LockBasedQueue T) :
    run (a ++ b) q =
      match run a q with
      | none => none
      | some (os, q1) =>
        match run b q1 with
        | none => none
        | some (os2, q2) => some (os ++ os2, q2) := by
  induction a generalizing q with
  | nil =>
    rw [List.nil_append]
    show run b q = match run b q with
      | none => none
      | some (os2, q2) => some ([] ++ os2, q2)
    cases run b q with
    | none => rfl
    | some r => rfl
  | cons c cs ih =>
    rw [List.cons_append, run_cons, run_cons]
    cases hs : step c q with
    | none => rfl
    | some r =>
      obtain ⟨o, q1⟩ := r
      simp only [ih]
      cases run cs q1 with
      | none => rfl
      | some r1 =>
        obtain ⟨os, q2⟩ := r1
        simp only
        cases run b q2 with
        | none => rfl
        | some r2 => rfl

theorem enqueueCall_step (byMove : Bool) (x : T) (q : LockBasedQueue T)
    (h : q.m_shutdown = false) :
    step (enqueueCall byMove x) q
      = some (Outcome.done, { m_queue := q.m_queue ++ [x], m_shutdown := false }) := by
  cases byMove <;>
    simp [enqueueCall, step, LockBasedQueue.enqueue, LockBasedQueue.enqueueMove, h]

theorem run_enqueues (es : List (Bool × T)) (xs : List T) :
    run (es.map (fun e => enqueueCall e.1 e.2)) { m_queue := xs, m_shutdown := false }
      = some (List.replicate es.length Outcome.done,
          { m_queue := xs ++ es.map (fun e => e.2), m_shutdown := false }) := by
  induction es generalizing xs with
  | nil => simp [run]
  | cons e es ih =>
    simp only [List.map_cons, run, List.length_cons, List.replicate_succ]
    rw [enqueueCall_step _ _ _ rfl]
    simp only [ih, List.append_assoc, List.singleton_append]

theorem run_dequeues (xs : List T) (b : Bool) :
    run (List.replicate xs.length Call.dequeue) { m_queue := xs, m_shutdown := b }
      = some (xs.map (fun x => Outcome.optional (some x)),
          { m_queue := [], m_shutdown := b }) := by
  induction xs with
  | nil => simp [run]
  | cons x xs ih =>
    simp only [List.length_cons, List.replicate_succ, run, step, LockBasedQueue.dequeue,
      LockBasedQueue.wait, LockBasedQueue.waitPred, List.isEmpty_cons, Bool.not_false,
      Bool.or_true, if_true, ih, List.map_cons]

/-! ## The claims -/

/-- C1 (queue FIFO): on a freshly constructed queue, after any finite sequence of enqueue
calls, each through either overload, as many consecutive `dequeue()` calls as there were
enqueues all return, they return the enqueued items in the order of the enqueues, and the
queue is then empty (and still not shut down). -/
theorem fifo_enqueue_then_dequeue (es : List (Bool × T)) :
    run (es.map (fun e => enqueueCall e.1 e.2) ++ List.replicate es.length Call.dequeue)
        (LockBasedQueue.new : LockBasedQueue T)
      = some (List.replicate es.length Outcome.done
                ++ es.map (fun e => Outcome.optional (some e.2)),
              { m_queue := [], m_shutdown := false }) := by
  rw [run_append]
  have h1 := run_enqueues es ([] : List T)
  simp only [List.nil_append] at h1
  simp only [LockBasedQueue.new, h1]
  have h2 := run_dequeues (es.map (fun e => e.2)) false
  simp only [List.length_map, List.map_map] at h2
  simp only [h2]
  rfl

/-! ### After shutdown -/

theorem takenItems_cons (o : Outcome T) (os : List (Outcome T)) :
    takenItems (o :: os) = o.taken ++ takenItems os := by
  simp [takenItems]

/-- On a shut-down queue every call returns, the flag stays set, and whatever the call
takes out is the front of what was pending. -/
theorem step_of_shutdown (c : Call T) (q : LockBasedQueue T) (h : q.m_shutdown = true) :
    ∃ o q1, step c q = some (o, q1) ∧ q1.m_shutdown = true ∧
      ∃ rest, q.m_queue = o.taken ++ rest ∧ q1.m_queue <+: rest := by
  obtain ⟨xs, b⟩ := q
  simp only at h
  subst h
  cases c with
  | enqueue x =>
    exact ⟨_, _, rfl, rfl, xs, rfl, List.prefix_refl _⟩
  | enqueueMove x =>
    exact ⟨_, _, rfl, rfl, xs, rfl, List.prefix_refl _⟩
  | dequeue =>
    cases xs with
    | nil => exact ⟨_, _, rfl, rfl, [], rfl, List.prefix_refl _⟩
    | cons x xs => exact ⟨_, _, rfl, rfl, xs, rfl, List.prefix_refl _⟩
  | tryDequeue y =>
    cases xs with
    | nil => exact ⟨_, _, rfl, rfl, [], rfl, List.prefix_refl _⟩
    | cons x xs => exact ⟨_, _, rfl, rfl, xs, rfl, List.prefix_refl _⟩
  | waitDequeue t =>
    cases xs with
    | nil => exact ⟨_, _, rfl, rfl, [], rfl, List.prefix_refl _⟩
    | cons x xs => exact ⟨_, _, rfl, rfl, xs, rfl, List.prefix_refl _⟩
  | empty => exact ⟨_, _, rfl, rfl, xs, rfl, List.prefix_refl _⟩
  | size => exact ⟨_, _, rfl, rfl, xs, rfl, List.prefix_refl _⟩
  | clear => exact ⟨_, _, rfl, rfl, xs, rfl, List.nil_prefix⟩
  | shutdown => exact ⟨_, _, rfl, rfl, xs, rfl, List.prefix_refl _⟩
  | isShutDown => exact ⟨_, _, rfl, rfl, xs, rfl, List.prefix_refl _⟩

/-- On a shut-down queue every sequence of calls returns, ends shut down, and takes out
a front segment of what was pending, in order. -/
theorem run_of_shutdown (cs : List (Call T)) (q : LockBasedQueue T)
    (h : q.m_shutdown = true) :
    ∃ os q2, run cs q = some (os, q2) ∧ q2.m_shutdown = true ∧
      takenItems os <+: q.m_queue := by
  induction cs generalizing q with
  | nil => exact ⟨[], q, rfl, h, List.nil_prefix⟩
  | cons c cs ih =>
    obtain ⟨o, q1, hstep, hq1, rest, hrest, hpre⟩ := step_of_shutdown c q h
    obtain ⟨os, q2, hrun, hq2, htaken⟩ := ih q1 hq1
    refine ⟨o :: os, q2, ?_, hq2, ?_⟩
    · rw [run_cons, hstep]
      simp only [hrun]
    · rw [takenItems_cons, hrest]
      exact (List.prefix_append_right_inj _).mpr (htaken.trans hpre)

/-! ### The waits -/

theorem wait_for_fst (timeout : Int) (env : List (Nat × LockBasedQueue T))
    (q : LockBasedQueue T) :
    (LockBasedQueue.wait_for timeout env q).1
      = (LockBasedQueue.wait_for timeout env q).2.waitPred := by
  induction env generalizing q with
  | nil => rfl
  | cons w env ih =>
    obtain ⟨elapsed, q1⟩ := w
    simp only [LockBasedQueue.wait_for]
    by_cases hp : q.waitPred = true
    · simp [hp]
    · by_cases ht : timeout ≤ (elapsed : Int)
      · simp [hp, ht]
      · simp only [hp, ht, if_false, Bool.false_eq_true]
        exact ih q1

theorem wait_eq_some (env : List (LockBasedQueue T)) (q q1 : LockBasedQueue T)
    (h : LockBasedQueue.wait env q = some q1) : q1.waitPred = true := by
  induction env generalizing q with
  | nil =>
    simp only [LockBasedQueue.wait] at h
    split at h
    · cases h; assumption
    · cases h
  | cons w env ih =>
    simp only [LockBasedQueue.wait] at h
    split at h
    · cases h; assumption
    · exact ih w h

theorem wait_of_pred (env : List (LockBasedQueue T)) (q : LockBasedQueue T)
    (h : q.waitPred = true) : LockBasedQueue.wait env q = some q := by
  cases env <;> simp [LockBasedQueue.wait, h]

theorem wait_eq_none (env : List (LockBasedQueue T)) (q : LockBasedQueue T)
    (h : LockBasedQueue.wait env q = none) : q.waitPred = false := by
  cases hp : q.waitPred with
  | false => rfl
  | true => rw [wait_of_pred env q hp] at h; cases h

theorem waitPred_eq_false (q : LockBasedQueue T) :
    q.waitPred = false ↔ q.m_queue = [] ∧ q.m_shutdown = false := by
  obtain ⟨xs, b⟩ := q
  cases xs <;> cases b <;> simp [LockBasedQueue.waitPred]

/-- C2 (enqueue after shutdown): on a queue whose shutdown flag is set, `enqueue(item)`
through either overload leaves the state (pending items, hence `size()`) as it was, and
every later sequence of calls returns and takes out only a front segment of the items that
were pending before the rejected call; an item that was not already pending is never
handed out by a later `dequeue`, `tryDequeue` or `waitDequeue`. -/
theorem enqueue_after_shutdown_is_dropped (q : LockBasedQueue T) (x : T) (byMove : Bool)
    (cs : List (Call T)) (h : q.isShutDown = true) :
    q.enqueue x = q ∧ q.enqueueMove x = q ∧
    (q.enqueue x).size = q.size ∧ (q.enqueueMove x).size = q.size ∧
    ∃ os q2, run (enqueueCall byMove x :: cs) q = some (Outcome.done :: os, q2) ∧
      takenItems os <+: q.m_queue ∧ (x ∉ q.m_queue → x ∉ takenItems os) := by
  have hs : q.m_shutdown = true := h
  have h1 : q.enqueue x = q := by simp [LockBasedQueue.enqueue, hs]
  have h2 : q.enqueueMove x = q := by simp [LockBasedQueue.enqueueMove, hs]
  refine ⟨h1, h2, by rw [h1], by rw [h2], ?_⟩
  obtain ⟨os, q2, hrun, _, htaken⟩ := run_of_shutdown cs q hs
  refine ⟨os, q2, ?_, htaken, fun hx hmem => hx (htaken.subset hmem)⟩
  have hstep : step (enqueueCall byMove x) q = some (Outcome.done, q) := by
    cases byMove
    · show some (Outcome.done, q.enqueue x) = _
      rw [h1]
    · show some (Outcome.done, q.enqueueMove x) = _
      rw [h2]
  rw [run_cons, hstep]
  simp only [hrun]

/-- Witness for C2: a shut-down queue holding 1, 2; the rejected item is 7. -/
theorem enqueue_after_shutdown_is_dropped_witness :
    LockBasedQueue.isShutDown ({ m_queue := [1, 2], m_shutdown := true } : LockBasedQueue Nat)
      = true ∧
    LockBasedQueue.enqueue 7 ({ m_queue := [1, 2], m_shutdown := true } : LockBasedQueue Nat)
      = { m_queue := [1, 2], m_shutdown := true } :=
  ⟨rfl, (enqueue_after_shutdown_is_dropped { m_queue := [1, 2], m_shutdown := true } 7 true
    [Call.dequeue, Call.tryDequeue 0, Call.waitDequeue 5, Call.dequeue] rfl).1⟩

/-- C3 (dequeue on a shut-down, empty queue): when the queue is shut down and empty the wait
inside `dequeue()` is over at once, whatever other threads would do, and the call returns
`nullopt` with the state unchanged.  A `dequeue()` that has not returned was called on an
empty queue that was not shut down; and on an otherwise-idle queue in that state it does
block. -/
theorem dequeue_shutdown_empty_returns_none (q : LockBasedQueue T)
    (env : List (LockBasedQueue T)) (hs : q.isShutDown = true) (he : q.empty = true) :
    LockBasedQueue.wait env q = some q ∧ q.dequeue env = some (none, q) ∧
    (∀ (p : LockBasedQueue T) (envp : List (LockBasedQueue T)),
      p.dequeue envp = none → p.empty = true ∧ p.isShutDown = false) ∧
    (∀ p : LockBasedQueue T, p.empty = true → p.isShutDown = false → p.dequeue [] = none) := by
  have hsd : q.m_shutdown = true := hs
  have hq : q.m_queue = [] := by simpa [LockBasedQueue.empty] using he
  have hp : q.waitPred = true := by simp [LockBasedQueue.waitPred, hsd]
  have hw := wait_of_pred env q hp
  refine ⟨hw, ?_, ?_, ?_⟩
  · simp only [LockBasedQueue.dequeue, hw, hq]
  · intro p envp hnone
    have hwp : LockBasedQueue.wait envp p = none := by
      cases hwait : LockBasedQueue.wait envp p with
      | none => rfl
      | some p1 =>
        simp only [LockBasedQueue.dequeue, hwait] at hnone
        split at hnone <;> cases hnone
    have := (waitPred_eq_false p).mp (wait_eq_none envp p hwp)
    simpa [LockBasedQueue.empty, LockBasedQueue.isShutDown] using this
  · intro p hpe hps
    obtain ⟨xs, b⟩ := p
    simp only [LockBasedQueue.empty, List.isEmpty_iff] at hpe
    simp only [LockBasedQueue.isShutDown] at hps
    subst hpe hps
    rfl

/-- Witness for C3: the shut-down empty queue, with another thread that would have
enqueued 4 had the caller gone to sleep. -/
theorem dequeue_shutdown_empty_returns_none_witness :
    LockBasedQueue.dequeue [{ m_queue := [4], m_shutdown := true }]
        ({ m_queue := [], m_shutdown := true } : LockBasedQueue Nat)
      = some (none, { m_queue := [], m_shutdown := true }) ∧
    LockBasedQueue.dequeue [] (LockBasedQueue.new : LockBasedQueue Nat) = none :=
  ⟨(dequeue_shutdown_empty_returns_none { m_queue := [], m_shutdown := true }
      [{ m_queue := [4], m_shutdown := true }] rfl rfl).2.1, rfl⟩

/-- C4 (shutdown is permanent): after `shutdown()`, every finite sequence of further calls
of any public member returns, and an `isShutDown()` made after it returns true. -/
theorem shutdown_is_permanent (q : LockBasedQueue T) (cs : List (Call T)) :
    ∃ os q2,
      run (Call.shutdown :: cs ++ [Call.isShutDown]) q
        = some (Outcome.done :: os ++ [Outcome.flag true], q2) ∧
      q2.isShutDown = true := by
  obtain ⟨os, q2, hrun, hq2, _⟩ := run_of_shutdown cs q.shutdown rfl
  refine ⟨os, q2, ?_, hq2⟩
  have hlast : run [Call.isShutDown] q2 = some ([Outcome.flag true], q2) := by
    show some ([Outcome.flag q2.m_shutdown], q2) = _
    rw [hq2]
  rw [List.cons_append, run_cons]
  show (match run (cs ++ [Call.isShutDown]) q.shutdown with
    | none => none
    | some (os1, q3) => some (Outcome.done :: os1, q3)) = _
  rw [run_append, hrun]
  simp only [hlast, List.cons_append]

/-- C5 (tryDequeue): for every state, shut down or not, `tryDequeue(out)` returns at once;
it returns true exactly when the queue is non-empty, and then `out` holds the former front
and the queue is the former queue without it; when it returns false, `out` and the state
are as before the call. -/
theorem tryDequeue_front_or_nothing (item : T) (q : LockBasedQueue T) :
    ((q.tryDequeue item).1 = true ↔ q.empty = false) ∧
    ((q.tryDequeue item).1 = true →
      q.m_queue = (q.tryDequeue item).2.1 :: (q.tryDequeue item).2.2.m_queue ∧
      (q.tryDequeue item).2.2.m_shutdown = q.m_shutdown) ∧
    ((q.tryDequeue item).1 = false →
      (q.tryDequeue item).2.1 = item ∧ (q.tryDequeue item).2.2 = q) ∧
    step (Call.tryDequeue item) q
      = some (Outcome.tried (q.tryDequeue item).1 (q.tryDequeue item).2.1,
          (q.tryDequeue item).2.2) := by
  obtain ⟨xs, b⟩ := q
  cases xs <;> simp [LockBasedQueue.tryDequeue, LockBasedQueue.empty, step]

/-- C6 (waitDequeue): for every timeout and every state, and whatever other threads do
during the wait, `waitDequeue(timeout)` returns; when the queue is non-empty at the end of
the wait it returns the front item and removes it; otherwise it returns `nullopt` and leaves
the state found at the end of the wait.  A timed-out wait ends on an empty queue, so the
timeout and the shutdown-while-empty case give the same `nullopt`.  On an otherwise-idle
queue the state at the end of the wait is the state at the call. -/
theorem waitDequeue_front_or_none (timeout : Int) (env : List (Nat × LockBasedQueue T))
    (q : LockBasedQueue T) :
    (∀ item rest, (q.wait_for timeout env).2.m_queue = item :: rest →
      q.waitDequeue timeout env
        = (some item, { (q.wait_for timeout env).2 with m_queue := rest })) ∧
    ((q.wait_for timeout env).2.m_queue = [] →
      q.waitDequeue timeout env = (none, (q.wait_for timeout env).2)) ∧
    ((q.wait_for timeout env).1 = false → (q.wait_for timeout env).2.m_queue = []) ∧
    (q.wait_for timeout []).2 = q := by
  have hfst := wait_for_fst timeout env q
  refine ⟨?_, ?_, ?_, rfl⟩
  · intro item rest hq
    have hb : (q.wait_for timeout env).1 = true := by
      rw [hfst]
      simp [LockBasedQueue.waitPred, hq]
    unfold LockBasedQueue.waitDequeue
    generalize q.wait_for timeout env = w at hb hq
    obtain ⟨b, q1⟩ := w
    simp only at hb hq
    subst hb
    simp only [hq]
  · intro hq
    unfold LockBasedQueue.waitDequeue
    generalize q.wait_for timeout env = w at hq
    obtain ⟨b, q1⟩ := w
    simp only at hq
    cases b <;> simp only [hq]
  · intro hb
    rw [hfst] at hb
    exact ((waitPred_eq_false _).mp hb).1

/-- C7 (clear): after `clear()` no item is pending, `empty()` is true, `size()` is 0, and
`isShutDown()` is what it was before the call. -/
theorem clear_discards_items_keeps_flag (q : LockBasedQueue T) :
    q.clear.m_queue = [] ∧ q.clear.empty = true ∧ q.clear.size = 0 ∧
    q.clear.isShutDown = q.isShutDown :=
  ⟨rfl, rfl, rfl, rfl⟩

/-- C9 (shutdown idempotent): `shutdown()` twice in a row leaves exactly the state that one
`shutdown()` leaves, pending items and flag alike. -/
theorem shutdown_idempotent (q : LockBasedQueue T) :
    q.shutdown.shutdown = q.shutdown ∧
    run [Call.shutdown, Call.shutdown] q = some ([Outcome.done, Outcome.done], q.shutdown) ∧
    run [Call.shutdown] q = some ([Outcome.done], q.shutdown) :=
  ⟨rfl, rfl, rfl⟩

end queue
end assessment

/-! ## The Event value type -/

namespace assessment
namespace event

/-- C8 (deadline detection): with the clock reading as the argument, `isPastDeadline()` is
false whenever the stored deadline is the no-deadline sentinel `time_point::max()`, whatever
the clock says; for any other deadline it is true exactly when the clock reading is strictly
greater than the deadline.  So an event that has a deadline earlier than now is past
deadline, and, the clock never reading beyond `time_point::max()`, so is every event whose
stored deadline is earlier than now. -/
theorem isPastDeadline_iff (e : Event) (now : Int) :
    (e.getDeadline = time_point_max → ∀ t : Int, e.isPastDeadline t = false) ∧
    (e.getDeadline ≠ time_point_max → (e.isPastDeadline now = true ↔ now > e.getDeadline)) ∧
    (e.getDeadline ≠ time_point_max → e.getDeadline < now → e.isPastDeadline now = true) ∧
    (now ≤ time_point_max → e.getDeadline < now → e.isPastDeadline now = true) := by
  simp only [Event.getDeadline, Event.isPastDeadline, Bool.and_eq_true, bne_iff_ne, ne_eq,
    decide_eq_true_eq, gt_iff_lt]
  refine ⟨?_, ?_, ?_, ?_⟩
  · intro h t
    simp [h]
  · intro h
    simp [h]
  · intro h hlt
    exact ⟨h, hlt⟩
  · intro hnow hlt
    exact ⟨by omega, hlt⟩

/-- C10 as stated fails: `setDeadline` on an event without a deadline changes its
`deadline` attribute. -/
theorem setDeadline_changes_deadline :
    ((EventCall.setDeadline 100).after
        { id_ := 1, type_ := EventType.TIMER, priority_ := Priority.HIGH, payload_ := "tick",
          timestamp_ := 50, deadline_ := time_point_max }).deadline_
      ≠ ({ id_ := 1, type_ := EventType.TIMER, priority_ := Priority.HIGH, payload_ := "tick",
           timestamp_ := 50, deadline_ := time_point_max } : Event).deadline_ := by
  decide

/-- C10, amended: no public member call on an existing event changes its id, type,
priority, payload or timestamp; the accessors and `isPastDeadline` leave the whole event
as it is, and `setDeadline(d)` changes the deadline, to `d`, and nothing else. -/
theorem event_members_change_only_deadline (c : EventCall) (e : Event) :
    (c.after e).getId = e.getId ∧ (c.after e).getType = e.getType ∧
    (c.after e).getPriority = e.getPriority ∧ (c.after e).getPayload = e.getPayload ∧
    (c.after e).getTimestamp = e.getTimestamp ∧
    ((∀ d, c ≠ EventCall.setDeadline d) → c.after e = e) ∧
    (∀ d, c = EventCall.setDeadline d → (c.after e).getDeadline = d) := by
  cases c <;> simp [EventCall.after, Event.setDeadline, Event.getId, Event.getType,
    Event.getPriority, Event.getPayload, Event.getTimestamp, Event.getDeadline]

end event
end assessment

/-! ## The memory pool -/

namespace assessment
namespace memory

theorem freeRun_mark (n owner : Nat) (bs : List (Option Nat)) (h : freeRun n bs = true) :
    usedBlocks (markRun n owner 0 bs) = usedBlocks bs + n ∧
    (markRun n owner 0 bs).length = bs.length := by
  simp only [freeRun, Bool.and_eq_true, decide_eq_true_eq, List.all_eq_true] at h
  obtain ⟨hlen, hfree⟩ := h
  have hzero : List.countP Option.isSome (bs.take n) = 0 := by
    rw [List.countP_eq_zero]
    intro a ha
    have := hfree a ha
    cases a <;> simp_all
  have hsplit : usedBlocks bs
      = List.countP Option.isSome (bs.take n) + List.countP Option.isSome (bs.drop n) := by
    rw [← List.countP_append, List.take_append_drop]
    rfl
  have hmark : markRun n owner 0 bs = List.replicate n (some owner) ++ bs.drop n := by
    cases bs <;> rfl
  rw [hmark]
  constructor
  · rw [hsplit, hzero]
    simp only [usedBlocks, List.countP_append, List.countP_replicate, Option.isSome_some,
      if_true]
    omega
  · simp only [List.length_append, List.length_replicate, List.length_drop]
    omega

theorem firstFit_mark (n owner : Nat) (bs : List (Option Nat)) (start : Nat)
    (h : firstFit n bs = some start) :
    usedBlocks (markRun n owner start bs) = usedBlocks bs + n ∧
    (markRun n owner start bs).length = bs.length := by
  induction bs generalizing start with
  | nil =>
    simp only [firstFit] at h
    split at h
    · cases h
      exact freeRun_mark n owner [] (by assumption)
    · cases h
  | cons b bs ih =>
    simp only [firstFit] at h
    split at h
    · cases h
      exact freeRun_mark n owner (b :: bs) (by assumption)
    · cases hf : firstFit n bs with
      | none => simp [hf] at h
      | some i =>
        simp only [hf, Option.some.injEq] at h
        subst h
        obtain ⟨h1, h2⟩ := ih i hf
        constructor
        · show usedBlocks (b :: markRun n owner i bs) = usedBlocks (b :: bs) + n
          simp only [usedBlocks, List.countP_cons] at h1 ⊢
          omega
        · show (b :: markRun n owner i bs).length = (b :: bs).length
          simp only [List.length_cons, h2]

theorem usedBlocks_release (owner : Nat) (bs : List (Option Nat)) :
    usedBlocks (bs.map (fun b => if b = some owner then none else b))
        + bs.count (some owner) = usedBlocks bs ∧
    (bs.map (fun b => if b = some owner then none else b)).length = bs.length := by
  refine ⟨?_, List.length_map _ _⟩
  induction bs with
  | nil => rfl
  | cons b bs ih =>
    simp only [usedBlocks, List.map_cons, List.countP_cons, List.count_cons] at ih ⊢
    by_cases hb : b = some owner
    · subst hb
      simp only [if_true, Option.isSome_none, Option.isSome_some, beq_self_eq_true]
      simp only [Bool.false_eq_true, if_false]
      omega
    · cases b with
      | none => simp at ih ⊢; omega
      | some v =>
        have hv : ¬ v = owner := fun hv => hb (by rw [hv])
        simp [hv] at ih ⊢
        omega

/-- Every call keeps the sizes and keeps the bytes-in-use counter equal to the bytes of the
blocks that the bookkeeping marks in use. -/
theorem after_consistent (c : PoolCall) (p : MemoryPool)
    (h : p.usedSize = usedBlocks p.blocks * p.blockSize) :
    (c.after p).usedSize = usedBlocks (c.after p).blocks * (c.after p).blockSize ∧
    (c.after p).blocks.length = p.blocks.length ∧
    (c.after p).totalSize = p.totalSize ∧ (c.after p).blockSize = p.blockSize := by
  cases c with
  | allocate size =>
    simp only [PoolCall.after, MemoryPool.allocate]
    split
    · next r p1 heq =>
      split at heq
      · cases heq
      · split at heq
        · cases heq
        · next start hfit =>
          cases heq
          obtain ⟨h1, h2⟩ := firstFit_mark (blocksFor p.blockSize size) start p.blocks start hfit
          refine ⟨?_, h2, rfl, rfl⟩
          simp only [h1, h, Nat.add_mul]
    · exact ⟨h, rfl, rfl, rfl⟩
  | deallocate ptr size =>
    simp only [PoolCall.after, MemoryPool.deallocate]
    split
    · next p1 heq =>
      split at heq
      · cases heq
      · next off =>
        split at heq
        · cases heq
        · split at heq
          · cases heq
          · split at heq
            · cases heq
            · cases heq
              obtain ⟨h1, h2⟩ := usedBlocks_release (off / p.blockSize) p.blocks
              refine ⟨?_, h2, rfl, rfl⟩
              simp only [h, ← h1, Nat.add_mul, Nat.add_sub_cancel]
    · exact ⟨h, rfl, rfl, rfl⟩

theorem runPool_consistent (cs : List PoolCall) (p : MemoryPool)
    (h : p.usedSize = usedBlocks p.blocks * p.blockSize) :
    (runPool cs p).usedSize = usedBlocks (runPool cs p).blocks * (runPool cs p).blockSize ∧
    (runPool cs p).blocks.length = p.blocks.length ∧
    (runPool cs p).totalSize = p.totalSize ∧ (runPool cs p).blockSize = p.blockSize := by
  induction cs generalizing p with
  | nil => exact ⟨h, rfl, rfl, rfl⟩
  | cons c cs ih =>
    obtain ⟨h1, h2, h3, h4⟩ := after_consistent c p h
    obtain ⟨k1, k2, k3, k4⟩ := ih (c.after p) h1
    exact ⟨k1, k2.trans h2, k3.trans h3, k4.trans h4⟩

end memory
end assessment

namespace assessment
namespace memory

/-- C12 (pool conservation): for a pool as the constructor leaves it and after every finite
sequence of `allocate` and `deallocate` calls, failing ones included,
`getUsedSize() + getAvailableSize()` equals `getTotalSize()`, the total size is the one
given at construction, and the bytes in use are the bytes of the blocks marked in use. -/
theorem pool_conservation (totalSize blockSize : Nat) (p : MemoryPool) (cs : List PoolCall)
    (h : MemoryPool.create totalSize blockSize = Except.ok p) :
    (runPool cs p).getUsedSize + (runPool cs p).getAvailableSize
      = (runPool cs p).getTotalSize ∧
    (runPool cs p).getTotalSize = totalSize ∧
    (runPool cs p).getUsedSize = usedBlocks (runPool cs p).blocks * blockSize := by
  simp only [MemoryPool.create] at h
  split at h
  · cases h
  · cases h
    obtain ⟨h1, h2, h3, h4⟩ := runPool_consistent cs
      { totalSize := totalSize, blockSize := blockSize,
        blocks := List.replicate (totalSize / blockSize) none,
        usedSize := 0, allocationCount := 0, deallocationCount := 0 }
      (by simp [usedBlocks])
    simp only [List.length_replicate] at h2 h3 h4
    simp only [MemoryPool.getUsedSize, MemoryPool.getAvailableSize, MemoryPool.getTotalSize]
    rw [h4] at h1
    have hle : usedBlocks (runPool cs
        { totalSize := totalSize, blockSize := blockSize,
          blocks := List.replicate (totalSize / blockSize) none,
          usedSize := 0, allocationCount := 0, deallocationCount := 0 }).blocks
        ≤ totalSize / blockSize := by
      have hcount := List.countP_le_length Option.isSome (l := (runPool cs
        { totalSize := totalSize, blockSize := blockSize,
          blocks := List.replicate (totalSize / blockSize) none,
          usedSize := 0, allocationCount := 0, deallocationCount := 0 }).blocks)
      rw [h2] at hcount
      exact hcount
    have hmul := Nat.mul_le_mul_right blockSize hle
    have hdiv := Nat.div_mul_le_self totalSize blockSize
    refine ⟨?_, h3, h1⟩
    rw [h3, h1]
    omega

/-- Witness for C12: a pool of 256 bytes in blocks of 64, after two allocations, a
deallocation, a double free and a request that does not fit. -/
theorem pool_conservation_witness :
    MemoryPool.create 256 64
      = Except.ok { totalSize := 256, blockSize := 64, blocks := [none, none, none, none],
                    usedSize := 0, allocationCount := 0, deallocationCount := 0 } ∧
    (runPool [PoolCall.allocate 100, PoolCall.allocate 1, PoolCall.deallocate (some 0) 128,
        PoolCall.deallocate (some 0) 128, PoolCall.allocate 200]
      { totalSize := 256, blockSize := 64, blocks := [none, none, none, none],
        usedSize := 0, allocationCount := 0, deallocationCount := 0 }).getTotalSize = 256 :=
  ⟨rfl, (pool_conservation 256 64 _ _ rfl).2.1⟩

end memory

namespace event

/-- C13 (ordering by priority): for two events of different priority, `a < b` holds exactly
when the priority of `a` is the lower one in LOW < MEDIUM < HIGH < CRITICAL, `a > b` holds
exactly when `b < a`, and neither answer depends on any other attribute of the events. -/
theorem operator_lt_by_priority (tie : Event → Event → Bool) (a b : Event)
    (h : a.getPriority ≠ b.getPriority) :
    (operator_lt tie a b = true ↔ a.getPriority.rank < b.getPriority.rank) ∧
    (operator_gt tie a b = true ↔ operator_lt tie b a = true) ∧
    (∀ a1 b1 : Event, a1.getPriority = a.getPriority → b1.getPriority = b.getPriority →
      operator_lt tie a1 b1 = operator_lt tie a b ∧
      operator_gt tie a1 b1 = operator_gt tie a b) ∧
    Priority.LOW.rank < Priority.MEDIUM.rank ∧ Priority.MEDIUM.rank < Priority.HIGH.rank ∧
    Priority.HIGH.rank < Priority.CRITICAL.rank := by
  simp only [Event.getPriority] at h ⊢
  have h2 : ¬ b.priority_ = a.priority_ := fun e => h e.symm
  refine ⟨?_, ?_, ?_, by decide, by decide, by decide⟩
  · simp [operator_lt, h]
  · simp [operator_lt, operator_gt, h, h2]
  · intro a1 b1 ha hb
    simp [operator_lt, operator_gt, ha, hb, h]

/-- Witness for C13: a LOW event and a CRITICAL event that differ in nothing else. -/
theorem operator_lt_by_priority_witness :
    operator_lt (fun _ _ => false)
        { id_ := 1, type_ := EventType.TIMER, priority_ := Priority.LOW, payload_ := "",
          timestamp_ := 0, deadline_ := time_point_max }
        { id_ := 1, type_ := EventType.TIMER, priority_ := Priority.CRITICAL, payload_ := "",
          timestamp_ := 0, deadline_ := time_point_max } = true :=
  (operator_lt_by_priority (fun _ _ => false)
      { id_ := 1, type_ := EventType.TIMER, priority_ := Priority.LOW, payload_ := "",
        timestamp_ := 0, deadline_ := time_point_max }
      { id_ := 1, type_ := EventType.TIMER, priority_ := Priority.CRITICAL, payload_ := "",
        timestamp_ := 0, deadline_ := time_point_max }
      (by decide)).1.mpr (by decide)

/-- C18 (a missed deadline stays missed): for one event, with its deadline left as it is,
and clock readings `t1 ≤ t2`, past deadline at `t1` implies past deadline at `t2`. -/
theorem isPastDeadline_monotone (e : Event) (t1 t2 : Int) (h : t1 ≤ t2)
    (hp : e.isPastDeadline t1 = true) : e.isPastDeadline t2 = true := by
  simp only [Event.isPastDeadline, Bool.and_eq_true, bne_iff_ne, ne_eq, decide_eq_true_eq,
    gt_iff_lt] at hp ⊢
  exact ⟨hp.1, by omega⟩

/-- Witness for C18: deadline 5, clock readings 6 and 9. -/
theorem isPastDeadline_monotone_witness :
    Event.isPastDeadline 9
      { id_ := 1, type_ := EventType.SYSTEM, priority_ := Priority.LOW, payload_ := "",
        timestamp_ := 0, deadline_ := 5 } = true :=
  isPastDeadline_monotone _ 6 9 (by decide) (by decide)

end event
end assessment

/-! ## The queue under interleaved calls -/

namespace assessment
namespace queue

variable {T : Type}

/-- One call that is not `clear` keeps the ledger balanced: what it takes out, what is then
pending and what the later calls get accepted add up to what was pending plus what this
call and the later calls get accepted. -/
theorem step_accepted (c : Call T) (q q1 : LockBasedQueue T) (o : Outcome T)
    (cs : List (Call T)) (hc : c ≠ Call.clear) (h : step c q = some (o, q1)) :
    o.taken ++ (q1.m_queue ++ accepted q1.m_shutdown cs)
      = q.m_queue ++ accepted q.m_shutdown (c :: cs) := by
  obtain ⟨xs, b⟩ := q
  cases c with
  | clear => exact absurd rfl hc
  | enqueue x =>
    cases b <;>
      simp [step, LockBasedQueue.enqueue] at h <;>
      obtain ⟨rfl, rfl⟩ := h <;>
      simp [accepted, Outcome.taken]
  | enqueueMove x =>
    cases b <;>
      simp [step, LockBasedQueue.enqueueMove] at h <;>
      obtain ⟨rfl, rfl⟩ := h <;>
      simp [accepted, Outcome.taken]
  | dequeue =>
    cases xs <;> cases b <;>
      simp [step, LockBasedQueue.dequeue, LockBasedQueue.wait, LockBasedQueue.waitPred] at h <;>
      obtain ⟨rfl, rfl⟩ := h <;>
      simp [accepted, Outcome.taken]
  | tryDequeue y =>
    cases xs <;>
      simp [step, LockBasedQueue.tryDequeue] at h <;>
      obtain ⟨rfl, rfl⟩ := h <;>
      simp [accepted, Outcome.taken]
  | waitDequeue t =>
    cases xs <;> cases b <;>
      simp [step, LockBasedQueue.waitDequeue, LockBasedQueue.wait_for,
        LockBasedQueue.waitPred] at h <;>
      obtain ⟨rfl, rfl⟩ := h <;>
      simp [accepted, Outcome.taken]
  | empty =>
    simp [step] at h
    obtain ⟨rfl, rfl⟩ := h
    simp [accepted, Outcome.taken]
  | size =>
    simp [step] at h
    obtain ⟨rfl, rfl⟩ := h
    simp [accepted, Outcome.taken]
  | shutdown =>
    simp [step, LockBasedQueue.shutdown] at h
    obtain ⟨rfl, rfl⟩ := h
    simp [accepted, Outcome.taken]
  | isShutDown =>
    simp [step] at h
    obtain ⟨rfl, rfl⟩ := h
    simp [accepted, Outcome.taken]

theorem run_accepted (cs : List (Call T)) (q q2 : LockBasedQueue T) (os : List (Outcome T))
    (hc : ∀ c ∈ cs, c ≠ Call.clear) (h : run cs q = some (os, q2)) :
    takenItems os ++ q2.m_queue = q.m_queue ++ accepted q.m_shutdown cs := by
  induction cs generalizing q os with
  | nil =>
    simp only [run, Option.some.injEq, Prod.mk.injEq] at h
    obtain ⟨rfl, rfl⟩ := h
    simp [takenItems, accepted]
  | cons c cs ih =>
    rw [run_cons] at h
    cases hs : step c q with
    | none => simp [hs] at h
    | some r =>
      obtain ⟨o, q1⟩ := r
      simp only [hs] at h
      cases hr : run cs q1 with
      | none => simp [hr] at h
      | some r1 =>
        obtain ⟨os1, q3⟩ := r1
        simp only [hr, Option.some.injEq, Prod.mk.injEq] at h
        obtain ⟨rfl, rfl⟩ := h
        have h1 := ih q1 os1 (fun c1 hc1 => hc c1 (List.mem_cons_of_mem _ hc1)) hr
        have h2 := step_accepted c q q1 o cs (hc c (List.mem_cons_self _ _)) hs
        rw [takenItems_cons, List.append_assoc, h1, h2]

theorem run_takes (cs : List (Call T)) (es : List T) (b : Bool)
    (hc : ∀ c ∈ cs, c.isTake = true) (hlen : cs.length = es.length) :
    run cs { m_queue := es, m_shutdown := b }
      = some (List.zipWith itemOutcome cs es, { m_queue := [], m_shutdown := b }) := by
  induction cs generalizing es with
  | nil =>
    cases es with
    | nil => rfl
    | cons e es => cases hlen
  | cons c cs ih =>
    cases es with
    | nil => cases hlen
    | cons e es =>
      have hstep : step c { m_queue := e :: es, m_shutdown := b }
          = some (itemOutcome c e, { m_queue := es, m_shutdown := b }) := by
        have hct := hc c (List.mem_cons_self _ _)
        cases c <;> simp only [Call.isTake, Bool.false_eq_true] at hct <;>
          simp [step, itemOutcome, LockBasedQueue.dequeue, LockBasedQueue.wait,
            LockBasedQueue.waitPred, LockBasedQueue.tryDequeue, LockBasedQueue.waitDequeue,
            LockBasedQueue.wait_for]
      rw [run_cons, hstep]
      simp only [ih es (fun c1 hc1 => hc c1 (List.mem_cons_of_mem _ hc1))
        (Nat.succ.inj hlen), List.zipWith_cons_cons]

theorem takenItems_zipWith (cs : List (Call T)) (es : List T)
    (hlen : cs.length = es.length) :
    takenItems (List.zipWith itemOutcome cs es) = es := by
  induction cs generalizing es with
  | nil =>
    cases es with
    | nil => rfl
    | cons e es => cases hlen
  | cons c cs ih =>
    cases es with
    | nil => cases hlen
    | cons e es =>
      rw [List.zipWith_cons_cons, takenItems_cons, ih es (Nat.succ.inj hlen)]
      cases c <;> rfl

/-- C14 (FIFO under interleaving): take any finite sequence of calls without `clear`, in the
order in which they take effect on a freshly constructed queue, every call of which
returns.  The items handed out by `dequeue`, `tryDequeue` and `waitDequeue`, in call order,
followed by the items still pending, are exactly the items accepted by the enqueue calls, in
call order: the handed-out items are a front segment of the accepted ones and the pending
items are the rest. -/
theorem fifo_under_interleaving (cs : List (Call T)) (os : List (Outcome T))
    (q2 : LockBasedQueue T) (hc : ∀ c ∈ cs, c ≠ Call.clear)
    (hrun : run cs (LockBasedQueue.new : LockBasedQueue T) = some (os, q2)) :
    takenItems os ++ q2.m_queue = accepted false cs ∧
    takenItems os <+: accepted false cs ∧
    q2.m_queue <:+ accepted false cs := by
  have h := run_accepted cs LockBasedQueue.new q2 os hc hrun
  simp only [LockBasedQueue.new, List.nil_append] at h
  exact ⟨h, ⟨q2.m_queue, h⟩, ⟨takenItems os, h⟩⟩

/-- Witness for C14: two enqueues, a dequeue, a shutdown, a rejected enqueue, then a
`tryDequeue` and a `waitDequeue` on the shut-down queue. -/
theorem fifo_under_interleaving_witness :
    takenItems [Outcome.done, Outcome.done, Outcome.optional (some 1), Outcome.done,
        Outcome.done, Outcome.tried true 2, Outcome.optional none]
      ++ ([] : List Nat)
      = accepted false [Call.enqueue 1, Call.enqueueMove 2, Call.dequeue, Call.shutdown,
          Call.enqueue 3, Call.tryDequeue 0, Call.waitDequeue 5] :=
  (fifo_under_interleaving
    [Call.enqueue 1, Call.enqueueMove 2, Call.dequeue, Call.shutdown,
      Call.enqueue 3, Call.tryDequeue 0, Call.waitDequeue 5]
    [Outcome.done, Outcome.done, Outcome.optional (some 1), Outcome.done,
      Outcome.done, Outcome.tried true 2, Outcome.optional none]
    { m_queue := [], m_shutdown := true } (by decide) (by decide)).1

/-- C15 (empty and size agree): in every queue state `empty()` is true exactly when
`size()` is 0, `size()` is the number of pending items, and neither call changes the
state. -/
theorem empty_iff_size_zero (q : LockBasedQueue T) :
    (q.empty = true ↔ q.size = 0) ∧ q.size = q.m_queue.length ∧
    step Call.empty q = some (Outcome.flag q.empty, q) ∧
    step Call.size q = some (Outcome.count q.size, q) := by
  refine ⟨?_, rfl, rfl, rfl⟩
  obtain ⟨xs, b⟩ := q
  cases xs <;> simp [LockBasedQueue.empty, LockBasedQueue.size]

/-- C16 (shutdown keeps the pending items): when `shutdown()` is called on a queue holding
`e1..ek`, the next `k` calls, each any of `dequeue()`, `tryDequeue()` or `waitDequeue()`,
all return and deliver `e1..ek` in that order, none of them reporting "no item"; the queue is
then drained, and from then on each of the three reports "no item" and leaves the state as
it is. -/
theorem shutdown_keeps_pending (q : LockBasedQueue T) (cs : List (Call T))
    (hc : ∀ c ∈ cs, c.isTake = true) (hlen : cs.length = q.size) :
    run (Call.shutdown :: cs) q
      = some (Outcome.done :: List.zipWith itemOutcome cs q.m_queue,
          { m_queue := [], m_shutdown := true }) ∧
    takenItems (List.zipWith itemOutcome cs q.m_queue) = q.m_queue ∧
    (∀ c : Call T, c.isTake = true →
      step c { m_queue := [], m_shutdown := true }
        = some (noItemOutcome c, { m_queue := [], m_shutdown := true })) ∧
    (∀ (c : Call T) (e : T), c.isTake = true → itemOutcome c e ≠ noItemOutcome c) := by
  refine ⟨?_, takenItems_zipWith cs q.m_queue hlen, ?_, ?_⟩
  · have hstep : step Call.shutdown q
        = some (Outcome.done, { m_queue := q.m_queue, m_shutdown := true }) := rfl
    rw [run_cons, hstep]
    simp only [run_takes cs q.m_queue true hc hlen]
  · intro c hct
    cases c <;> simp only [Call.isTake, Bool.false_eq_true] at hct <;> rfl
  · intro c e hct
    cases c <;> simp only [Call.isTake, Bool.false_eq_true] at hct <;>
      simp [itemOutcome, noItemOutcome]

/-- Witness for C16: a queue holding 4, 5, 6, shut down and then drained by one call of
each kind. -/
theorem shutdown_keeps_pending_witness :
    run [Call.shutdown, Call.tryDequeue 0, Call.dequeue, Call.waitDequeue 0]
        ({ m_queue := [4, 5, 6], m_shutdown := false } : LockBasedQueue Nat)
      = some ([Outcome.done, Outcome.tried true 4, Outcome.optional (some 5),
          Outcome.optional (some 6)], { m_queue := [], m_shutdown := true }) :=
  (shutdown_keeps_pending { m_queue := [4, 5, 6], m_shutdown := false }
    [Call.tryDequeue 0, Call.dequeue, Call.waitDequeue 0] (by decide) rfl).1

/-- C17 (the dequeue variants agree where none waits): in a state where the wait condition
"shut down or non-empty" holds, whatever other threads would do during a wait and for every
timeout: on a non-empty queue `dequeue()`, `waitDequeue(t)` and `tryDequeue(out)` all
deliver the front item and leave the same state, the queue without its front; on an empty
(hence shut-down) queue all three report no item and leave the state, and `out`, as they
were. -/
theorem dequeue_variants_agree (q : LockBasedQueue T) (env : List (LockBasedQueue T))
    (envw : List (Nat × LockBasedQueue T)) (t : Int) (out : T)
    (h : q.empty = false ∨ (q.empty = true ∧ q.isShutDown = true)) :
    (∀ x rest, q.m_queue = x :: rest →
      q.dequeue env = some (some x, { m_queue := rest, m_shutdown := q.m_shutdown }) ∧
      q.waitDequeue t envw = (some x, { m_queue := rest, m_shutdown := q.m_shutdown }) ∧
      q.tryDequeue out = (true, x, { m_queue := rest, m_shutdown := q.m_shutdown })) ∧
    (q.m_queue = [] →
      q.dequeue env = some (none, q) ∧ q.waitDequeue t envw = (none, q) ∧
      q.tryDequeue out = (false, out, q)) := by
  obtain ⟨xs, b⟩ := q
  have hp : LockBasedQueue.waitPred { m_queue := xs, m_shutdown := b } = true := by
    cases xs <;> cases b <;> simp_all [LockBasedQueue.waitPred, LockBasedQueue.empty,
      LockBasedQueue.isShutDown]
  have hw := wait_of_pred env _ hp
  have hwf : LockBasedQueue.wait_for t envw { m_queue := xs, m_shutdown := b }
      = (true, { m_queue := xs, m_shutdown := b }) := by
    cases envw with
    | nil => simp [LockBasedQueue.wait_for, hp]
    | cons w ws =>
      obtain ⟨elapsed, q1⟩ := w
      simp [LockBasedQueue.wait_for, hp]
  constructor
  · intro x rest hq
    simp only at hq
    subst hq
    simp [LockBasedQueue.dequeue, hw, LockBasedQueue.waitDequeue, hwf,
      LockBasedQueue.tryDequeue]
  · intro hq
    simp only at hq
    subst hq
    simp [LockBasedQueue.dequeue, hw, LockBasedQueue.waitDequeue, hwf,
      LockBasedQueue.tryDequeue]

/-- Witness for C17: the queue holding 7, 8, not shut down, with other threads that would
have emptied it during a wait. -/
theorem dequeue_variants_agree_witness :
    LockBasedQueue.dequeue [{ m_queue := [], m_shutdown := true }]
        ({ m_queue := [7, 8], m_shutdown := false } : LockBasedQueue Nat)
      = some (some 7, { m_queue := [8], m_shutdown := false }) ∧
    LockBasedQueue.waitDequeue 3 [(1, { m_queue := [], m_shutdown := true })]
        ({ m_queue := [7, 8], m_shutdown := false } : LockBasedQueue Nat)
      = (some 7, { m_queue := [8], m_shutdown := false }) ∧
    LockBasedQueue.tryDequeue 0
        ({ m_queue := [7, 8], m_shutdown := false } : LockBasedQueue Nat)
      = (true, 7, { m_queue := [8], m_shutdown := false }) :=
  (dequeue_variants_agree { m_queue := [7, 8], m_shutdown := false }
    [{ m_queue := [], m_shutdown := true }] [(1, { m_queue := [], m_shutdown := true })] 3 0
    (Or.inl rfl)).1 7 [8] rfl

end queue
end assessment

namespace assessment
namespace queue

/-- The sequential side of the wake-up on shutdown: a `dequeue()` blocked on an empty queue
that is not shut down returns `nullopt` at the first wakeup that finds the queue shut down
and still empty.  That such a wakeup comes, and how soon, is up to the condition variable
and the scheduler. -/
theorem dequeue_returns_at_shutdown_wakeup {T : Type} (q : LockBasedQueue T)
    (env : List (LockBasedQueue T)) (he : q.empty = true) (hs : q.isShutDown = false) :
    q.dequeue (q.shutdown :: env) = some (none, q.shutdown) := by
  obtain ⟨xs, b⟩ := q
  simp only [LockBasedQueue.empty, List.isEmpty_iff] at he
  simp only [LockBasedQueue.isShutDown] at hs
  subst he hs
  cases env <;> rfl

end queue
end assessment
